import Mathlib

/-!
# django_database_translation: a shallow embedding

This file embeds the data model of the `django_database_translation` package
(`models.py`) and its helper functions (`utils.py`) as executable Lean
definitions, and proves properties of the embedded code.

Tables are lists of rows; Django queryset operations `filter` / `get` /
`count` become list operations.  `Model.objects.get(...)` either returns the
unique matching row or fails: `DoesNotExist` when no row matches,
`MultipleObjectsReturned` when several do.  Foreign keys are stored as the
primary key (`Nat`) of the referenced row, exactly as in the relational
schema (`ddt_fields`, `ddt_items`, `ddt_languages`, `ddt_translations`).
-/

namespace DDT

/-- Row of the `ddt_fields` table (`models.Field`): one translatable
attribute of one application model, identified by `(content_type, name)`
(declared `unique_together`). -/
structure Field where
  id : Nat
  content_type : Nat
  name : String
deriving Repr, DecidableEq

/-- Row of the `ddt_items` table (`models.Item`): one concrete instance's
translatable attribute; `field` is an on-delete-cascade foreign key to
`Field`, `(content_type, object_id)` is the generic reference to the owning
object, and `(field, object_id)` is declared `unique_together`. -/
structure Item where
  id : Nat
  field : Nat
  object_id : Nat
  content_type : Nat
deriving Repr, DecidableEq

/-- Row of the `ddt_languages` table (`models.Language`): an available
language; `name`, `iso2`, `iso3` and `django_language_name` are each
declared `unique`. -/
structure Language where
  id : Nat
  name : String
  iso2 : String
  iso3 : String
  django_language_name : String
deriving Repr, DecidableEq

/-- Row of the `ddt_translations` table (`models.Translation`): the text for
one `Item` in one `Language`; `language` and `item` are on-delete-cascade
foreign keys and `(language, item)` is declared `unique_together`. -/
structure Translation where
  id : Nat
  language : Nat
  item : Nat
  text : String
deriving Repr, DecidableEq

/-- The relational store: the four tables of the app. -/
structure DBState where
  fields : List Field
  items : List Item
  languages : List Language
  translations : List Translation
deriving Repr, DecidableEq

/-- Errors surfaced by the ORM lookups and by the helper functions of
`utils.py`. -/
inductive DbErr where
  | doesNotExist
  | multipleObjectsReturned
  | typeError
deriving Repr, DecidableEq

/-- `Model.objects.get(...)`: return the unique row of table `l` matching
predicate `p`, raise `DoesNotExist` when no row matches and
`MultipleObjectsReturned` when more than one does. -/
def objectsGet {α : Type} (l : List α) (p : α → Bool) : Except DbErr α :=
  match l.filter p with
  | [] => .error .doesNotExist
  | [x] => .ok x
  | _ :: _ :: _ => .error .multipleObjectsReturned

/-- `Language.save` (models.py): overrides save to `upper()` the `iso2` and
`iso3` codes before the row is stored; all other columns are stored as
assigned. -/
def Language.save (self : Language) : Language :=
  { self with iso2 := self.iso2.toUpper, iso3 := self.iso3.toUpper }

/-- `Field.count_missing_translations`:
`Translation.objects.filter(item__field=self).filter(text="").count()`.
The `item__field` lookup joins through the `item` foreign key, so a
translation matches when some `Item` row is its target and references
`self`. -/
def Field.count_missing_translations (db : DBState) (self : Field) : Nat :=
  ((db.translations.filter fun t =>
      db.items.any fun i => i.id == t.item && i.field == self.id).filter fun t =>
    t.text == "").length

/-- `Item.count_missing_translations`:
`Translation.objects.filter(item=self).filter(text="").count()`. -/
def Item.count_missing_translations (db : DBState) (self : Item) : Nat :=
  ((db.translations.filter fun t => t.item == self.id).filter fun t =>
    t.text == "").length

/-- `Language.count_missing_translations`:
`Translation.objects.filter(language=self).filter(text="").count()`. -/
def Language.count_missing_translations (db : DBState) (self : Language) : Nat :=
  ((db.translations.filter fun t => t.language == self.id).filter fun t =>
    t.text == "").length

/-- The specification's reading of `Field.count_missing_translations`: the
number of Translation rows whose item's field is this Field and whose text
is the empty string. -/
def specMissingForField (db : DBState) (f : Field) : Nat :=
  db.translations.countP fun t =>
    decide ((∃ i ∈ db.items, i.id = t.item ∧ i.field = f.id) ∧ t.text = "")

/-- The specification's reading of `Item.count_missing_translations`: the
number of Translation rows with this item and empty text. -/
def specMissingForItem (db : DBState) (i : Item) : Nat :=
  db.translations.countP fun t => decide (t.item = i.id ∧ t.text = "")

/-- The specification's reading of `Language.count_missing_translations`:
the number of Translation rows with this language and empty text. -/
def specMissingForLanguage (db : DBState) (l : Language) : Nat :=
  db.translations.countP fun t => decide (t.language = l.id ∧ t.text = "")

/-- Modelled from the spec: `ForeignKeyCascade` is imported by `models.py`
from `.utils`, but its definition is not among the given sources.  Per the
spec ("Deleting a Field cascades to delete all its Items", "Deleting an
Item cascades to delete all its Translations") it declares an
on-delete-cascade foreign key, so deleting a Field row removes every Item
row whose `field` references it, removes every Translation row whose `item`
references one of those Items, and touches nothing else. -/
def deleteField (db : DBState) (fid : Nat) : DBState :=
  let dead := db.items.filter fun i => i.field == fid
  { fields := db.fields.filter fun f => f.id != fid
    items := db.items.filter fun i => i.field != fid
    languages := db.languages
    translations := db.translations.filter fun t => !dead.any fun i => i.id == t.item }

/-- `objects.create` on `Field`: the database enforces primary-key
uniqueness and the declared `unique_together` `(content_type, name)`; a
violating insert fails and adds no row. -/
def insertField (db : DBState) (f : Field) : Option DBState :=
  if db.fields.any fun g =>
      g.id == f.id || (g.content_type == f.content_type && g.name == f.name)
  then none
  else some { db with fields := f :: db.fields }

/-- `objects.create` on `Item`: enforces primary-key uniqueness and the
declared `unique_together` `(field, object_id)`. -/
def insertItem (db : DBState) (i : Item) : Option DBState :=
  if db.items.any fun j =>
      j.id == i.id || (j.field == i.field && j.object_id == i.object_id)
  then none
  else some { db with items := i :: db.items }

/-- `objects.create` on `Language`: enforces primary-key uniqueness and the
four declared `unique` columns. -/
def insertLanguage (db : DBState) (l : Language) : Option DBState :=
  if db.languages.any fun m =>
      m.id == l.id || m.name == l.name || m.iso2 == l.iso2 ||
        m.iso3 == l.iso3 || m.django_language_name == l.django_language_name
  then none
  else some { db with languages := l :: db.languages }

/-- `objects.create` on `Translation`: enforces primary-key uniqueness and
the declared `unique_together` `(language, item)`. -/
def insertTranslation (db : DBState) (t : Translation) : Option DBState :=
  if db.translations.any fun u =>
      u.id == t.id || (u.language == t.language && u.item == t.item)
  then none
  else some { db with translations := t :: db.translations }

/-- Modelled from the spec: deleting an Item cascades to delete all its
Translations (`Translation.item` is a `ForeignKeyCascade`, whose definition
is not among the given sources). -/
def deleteItem (db : DBState) (iid : Nat) : DBState :=
  { db with items := db.items.filter fun i => i.id != iid
            translations := db.translations.filter fun t => t.item != iid }

/-- Modelled from the spec: deleting a Language cascades to delete all its
Translations (`Translation.language` is a `ForeignKeyCascade`, whose
definition is not among the given sources). -/
def deleteLanguage (db : DBState) (lid : Nat) : DBState :=
  { db with languages := db.languages.filter fun l => l.id != lid
            translations := db.translations.filter fun t => t.language != lid }

/-- Deleting a single Translation row (nothing references translations, so
no cascade). -/
def deleteTranslation (db : DBState) (tid : Nat) : DBState :=
  { db with translations := db.translations.filter fun t => t.id != tid }

/-- Writing the `text` column of a Translation row. -/
def updateTranslationText (db : DBState) (tid : Nat) (s : String) : DBState :=
  { db with translations := db.translations.map fun t =>
      if t.id == tid then { t with text := s } else t }

/-- Re-pointing a Translation row at another (item, language) pair; the
database enforces the `(language, item)` `unique_together` constraint on
updates as well. -/
def updateTranslationKeys (db : DBState) (tid it lg : Nat) : Option DBState :=
  if db.translations.any fun u => u.id != tid && u.language == lg && u.item == it
  then none
  else some { db with translations := db.translations.map fun t =>
      if t.id == tid then { t with item := it, language := lg } else t }

/-- A translatable application-model instance, as the `TranslatedModel`
mixin sees it: its primary key and its resolved ContentType
(`get_content_type_instance`). -/
structure TInstance where
  id : Nat
  content_type : Nat
deriving Repr, DecidableEq

/-- An optional lookup argument compared against a column: a `None`
argument matches no stored (non-null) value. -/
def optMatch {α : Type} [BEq α] : Option α → α → Bool
  | none, _ => false
  | some x, y => x == y

/-- `TranslatedModel.get_translated_field`:
`Field.objects.get(content_type=<self's type>, name=field_name)`. -/
def get_translated_field (db : DBState) (self : TInstance)
    (field_name : Option String) : Except DbErr Field :=
  objectsGet db.fields fun f =>
    f.content_type == self.content_type && optMatch field_name f.name

/-- `TranslatedModel.get_translated_fields`: all Field rows associated with
the instance's model. -/
def get_translated_fields (db : DBState) (self : TInstance) : List Field :=
  db.fields.filter fun f => f.content_type == self.content_type

/-- `TranslatedModel.get_translated_item`: the field argument takes
precedence over the field name; then
`Item.objects.get(object_id=self.id, field=field)`. -/
def get_translated_item (db : DBState) (self : TInstance)
    (field : Option Field) (field_name : Option String) : Except DbErr Item := do
  let f ← match field with
    | some f => Except.ok f
    | none => get_translated_field db self field_name
  objectsGet db.items fun i => i.object_id == self.id && i.field == f.id

/-- `TranslatedModel.get_translation`: resolves the Item, then the Language
(the instance argument takes precedence over the id), then
`Translation.objects.get(item=item, language=language)`. -/
def get_translation (db : DBState) (self : TInstance)
    (field : Option Field) (field_name : Option String)
    (language : Option Language) (language_id : Option Nat) :
    Except DbErr Translation := do
  let item ← get_translated_item db self field field_name
  let lang ← match language with
    | some l => Except.ok l
    | none => objectsGet db.languages fun m => optMatch language_id m.id
  objectsGet db.translations fun t => t.item == item.id && t.language == lang.id

/-- The write operations available on the store. -/
inductive DbOp where
  | insField (f : Field)
  | insItem (i : Item)
  | insLanguage (l : Language)
  | insTranslation (t : Translation)
  | delField (fid : Nat)
  | delItem (iid : Nat)
  | delLanguage (lid : Nat)
  | delTranslation (tid : Nat)
  | setTranslationText (tid : Nat) (s : String)
  | setTranslationKeys (tid it lg : Nat)
deriving Repr, DecidableEq

/-- One write operation against the store; `none` means the database
rejected it (constraint violation). -/
def applyOp (db : DBState) : DbOp → Option DBState
  | .insField f => insertField db f
  | .insItem i => insertItem db i
  | .insLanguage l => insertLanguage db l
  | .insTranslation t => insertTranslation db t
  | .delField fid => some (deleteField db fid)
  | .delItem iid => some (deleteItem db iid)
  | .delLanguage lid => some (deleteLanguage db lid)
  | .delTranslation tid => some (deleteTranslation db tid)
  | .setTranslationText tid s => some (updateTranslationText db tid s)
  | .setTranslationKeys tid it lg => updateTranslationKeys db tid it lg

/-- The store with all four tables empty. -/
def DBState.empty : DBState := ⟨[], [], [], []⟩

/-- States reachable from the empty store by the write operations. -/
inductive Reachable : DBState → Prop where
  | empty : Reachable DBState.empty
  | step {db db' : DBState} (op : DbOp) :
      Reachable db → applyOp db op = some db' → Reachable db'

/-- A one-row translation table reached by a single insert. -/
def dbOneTranslation : DBState := ⟨[], [], [], [⟨1, 1, 1, ""⟩]⟩

/-- Two translation rows are compatible when they have distinct primary
keys and distinct `(item, language)` pairs. -/
def translationOk (a b : Translation) : Prop :=
  a.id ≠ b.id ∧ ¬(a.item = b.item ∧ a.language = b.language)

/-- The translation table holds pairwise-compatible rows. -/
def translationsInvariant (db : DBState) : Prop :=
  db.translations.Pairwise translationOk

/-- Fixture: a one-row-per-table store used by closed witnesses. -/
def fieldW : Field := ⟨1, 10, "title"⟩

/-- Fixture item: attribute `title` of object 5 of content type 10. -/
def itemW : Item := ⟨1, 1, 5, 10⟩

/-- Fixture language. -/
def langW : Language := ⟨1, "French", "FR", "FRA", "fr-fr"⟩

/-- Fixture translation: `itemW` in `langW`. -/
def translationW : Translation := ⟨1, 1, 1, "Bonjour"⟩

/-- Fixture store holding the four fixture rows. -/
def dbW : DBState := ⟨[fieldW], [itemW], [langW], [translationW]⟩

/-- Fixture translatable instance: object 5 of content type 10. -/
def selfW : TInstance := ⟨5, 10⟩

/-- Django's `LANGUAGE_SESSION_KEY` (`django.utils.translation`). -/
def LANGUAGE_SESSION_KEY : String := "_language"

/-- The session of an `HttpRequest`: a string-keyed mapping. -/
structure Request where
  session : List (String × String)
deriving Repr, DecidableEq

/-- `request.session.get(key, False)`: `none` plays the role of the falsy
`False` default. -/
def sessionGet (r : Request) (k : String) : Option String :=
  match r.session.find? (fun p => p.1 == k) with
  | some p => some p.2
  | none => none

/-- `request.session[key] = v`. -/
def sessionSet (r : Request) (k v : String) : Request :=
  ⟨(k, v) :: r.session.filter fun p => p.1 != k⟩

/-- `get_language_from_session` (utils.py): reads the session's language
name; a missing key or an empty (falsy) name yields `False` (embedded as
`none`), a name matching no Language row yields `False` (`DoesNotExist` is
caught), and a matching row is returned.  `MultipleObjectsReturned` is not
caught and would propagate. -/
def get_language_from_session (db : DBState) (request : Request) :
    Except DbErr (Option Language) :=
  match sessionGet request LANGUAGE_SESSION_KEY with
  | none => .ok none
  | some language_name =>
    if language_name == "" then .ok none
    else
      match objectsGet db.languages
          (fun l => l.django_language_name == language_name) with
      | .ok l => .ok (some l)
      | .error .doesNotExist => .ok none
      | .error e => .error e

/-- `update_user_language` (utils.py): requires a language or a language
id, resolves the Language row (the instance argument takes precedence),
calls `activate` on its `django_language_name` (modelled as the returned
second component) and stores that name in the session. -/
def update_user_language (db : DBState) (request : Request)
    (language : Option Language) (language_id : Option Nat) :
    Except DbErr (Request × String) :=
  match language, language_id with
  | none, none => .error .typeError
  | _, _ => do
    let l ← match language with
      | some l => Except.ok l
      | none => objectsGet db.languages fun m => optMatch language_id m.id
    Except.ok (sessionSet request LANGUAGE_SESSION_KEY l.django_language_name,
      l.django_language_name)

/-- Fixture request with an empty session. -/
def reqW : Request := ⟨[]⟩

/-- Fixture request whose session already selects the fixture language. -/
def reqW2 : Request := ⟨[(LANGUAGE_SESSION_KEY, "fr-fr")]⟩

/-- A file or image attribute value flattened by the serializer into its
`name`, `url` and `path`. -/
structure FileTriple where
  name : String
  url : String
  path : String
deriving Repr, DecidableEq

mutual
/-- A Python attribute value as `instance_as_translated_dict` classifies
it: an `Item` foreign key, a nested model instance, a file/image field
value (`none` embeds a falsy empty file), or any other non-`None` value,
kept opaque. -/
inductive AttrValue where
  | vItem (item_id : Nat) : AttrValue
  | vModel (sub : AttrList) : AttrValue
  | vFile (f : Option FileTriple) : AttrValue
  | vOther (raw : String) : AttrValue

/-- The declared fields of a model instance in `_meta.get_fields()` order;
`skip` is a declared field whose `getattr(instance, name, None)` is
`None`. -/
inductive AttrList where
  | nil : AttrList
  | skip (name : String) (rest : AttrList) : AttrList
  | cons (name : String) (v : AttrValue) (rest : AttrList) : AttrList
end

/-- A value of the dict produced by the serializer: a string (translation
text or the empty string an empty file turns into), a recursively
serialized sub-dict, a flattened file triple, or a value passed through
unconverted. -/
inductive OutValue where
  | text (s : String) : OutValue
  | subdict (d : List (String × OutValue)) : OutValue
  | filedict (f : FileTriple) : OutValue
  | raw (v : AttrValue) : OutValue

mutual
/-- The per-value case analysis of `instance_as_translated_dict`: an Item
reference is replaced by the text of
`Translation.objects.get(item=value, language=language)`; a nested model
is serialized recursively (with `depth=True`) when `depth` is set and
passed through unconverted otherwise; a truthy file value is flattened to
its triple and a falsy one becomes `""`; any other value is passed
through.  `lang = none` embeds the falsy `language=False` that an empty
session produces: no Translation row can match it. -/
def serializeValue (db : DBState) (depth : Bool) (lang : Option Language) :
    AttrValue → Except DbErr OutValue
  | .vItem iid =>
    match lang with
    | none => .error .doesNotExist
    | some l =>
      match objectsGet db.translations
          (fun t => t.item == iid && t.language == l.id) with
      | .ok t => .ok (.text t.text)
      | .error e => .error e
  | .vModel sub =>
    if depth then
      match serializeAttrs db true lang sub with
      | .ok d => .ok (.subdict d)
      | .error e => .error e
    else .ok (.raw (.vModel sub))
  | .vFile (some f) => .ok (.filedict f)
  | .vFile none => .ok (.text "")
  | .vOther s => .ok (.raw (.vOther s))

/-- The field loop of `instance_as_translated_dict`: declared fields whose
value is `None` are skipped, the others are serialized in order; the first
failure aborts the whole call. -/
def serializeAttrs (db : DBState) (depth : Bool) (lang : Option Language) :
    AttrList → Except DbErr (List (String × OutValue))
  | .nil => .ok []
  | .skip _ rest => serializeAttrs db depth lang rest
  | .cons n v rest =>
    match serializeValue db depth lang v with
    | .error e => .error e
    | .ok ov =>
      match serializeAttrs db depth lang rest with
      | .error e => .error e
      | .ok d => .ok ((n, ov) :: d)
end

/-- `instance_as_translated_dict` (utils.py): requires a language or a
request; with no language, resolves one from the session (possibly the
falsy `False`), then runs the field loop. -/
def instance_as_translated_dict (db : DBState) (inst : AttrList)
    (depth : Bool) (language : Option Language) (request : Option Request) :
    Except DbErr (List (String × OutValue)) :=
  match language, request with
  | none, none => .error .typeError
  | some l, _ => serializeAttrs db depth (some l) inst
  | none, some req =>
    match get_language_from_session db req with
    | .ok lres => serializeAttrs db depth lres inst
    | .error e => .error e

/-- The instance loop of `all_instances_as_translated_dict`. -/
def serializeAll (db : DBState) (depth : Bool) (lang : Option Language) :
    List AttrList → Except DbErr (List (List (String × OutValue)))
  | [] => .ok []
  | inst :: rest =>
    match serializeAttrs db depth lang inst with
    | .error e => .error e
    | .ok d =>
      match serializeAll db depth lang rest with
      | .error e => .error e
      | .ok ds => .ok (d :: ds)

/-- `all_instances_as_translated_dict` (utils.py): same argument checks
and language resolution as the single-instance function, then the
serializer applied to every instance in order. -/
def all_instances_as_translated_dict (db : DBState)
    (insts : List AttrList) (depth : Bool) (language : Option Language)
    (request : Option Request) :
    Except DbErr (List (List (String × OutValue))) :=
  match language, request with
  | none, none => .error .typeError
  | some l, _ => serializeAll db depth (some l) insts
  | none, some req =>
    match get_language_from_session db req with
    | .ok lres => serializeAll db depth lres insts
    | .error e => .error e

/-- The declared field names of an instance, in order. -/
def AttrList.declaredNames : AttrList → List String
  | .nil => []
  | .skip n rest => n :: rest.declaredNames
  | .cons n _ rest => n :: rest.declaredNames

/-- The non-`None` value a declared attribute resolves to, if any. -/
def AttrList.declaredValue : AttrList → String → Option AttrValue
  | .nil, _ => none
  | .skip n rest, key => if n == key then none else rest.declaredValue key
  | .cons n v rest, key => if n == key then some v else rest.declaredValue key

/-- The per-attribute case analysis of the serializer, relating a stored
value to the dict value emitted for it. -/
def serializedAs (db : DBState) (depth : Bool) (l : Language) :
    AttrValue → OutValue → Prop
  | .vItem iid, ov =>
    ∃ t ∈ db.translations, t.item = iid ∧ t.language = l.id ∧ ov = .text t.text
  | .vModel sub, ov =>
    if depth then
      ∃ d, serializeAttrs db true (some l) sub = .ok d ∧ ov = .subdict d
    else ov = .raw (.vModel sub)
  | .vFile (some f), ov => ov = .filedict f
  | .vFile none, ov => ov = .text ""
  | .vOther s, ov => ov = .raw (.vOther s)

/-- An opaque Python attribute value as stored in `instance.__dict__`
(e.g. a raw `name_id` foreign key), or a text inserted by
`dict_with_translations`. -/
inductive PyVal where
  | obj (tag : String) : PyVal
  | str (s : String) : PyVal
deriving Repr, DecidableEq

/-- Python dict read on an association list: the first binding of the
key, if any. -/
def dictGet {β : Type} : List (String × β) → String → Option β
  | [], _ => none
  | (k, v) :: rest, key => if k == key then some v else dictGet rest key

/-- Python dict assignment on an association list: replaces the entry in
place when the key exists, appends otherwise. -/
def dictSet (d : List (String × PyVal)) (k : String) (v : PyVal) :
    List (String × PyVal) :=
  if (dictGet d k).isSome then
    d.map fun p => if p.1 == k then (p.1, v) else p
  else d ++ [(k, v)]

/-- A `TranslatedModel` instance together with its `__dict__` (with the
`_state` entry already removed, as `dict_with_translations` does). -/
structure TRecord where
  id : Nat
  content_type : Nat
  attrs : List (String × PyVal)
deriving Repr, DecidableEq

/-- The identity/type part of a record, as the mixin lookups use it. -/
def TRecord.toInstance (self : TRecord) : TInstance :=
  ⟨self.id, self.content_type⟩

/-- The loop of `dict_with_translations`: for every translated Field,
`field_dict[field.name] = self.get_translation(field, language).text`. -/
def addTranslations (db : DBState) (self : TInstance) (lang : Language) :
    List Field → List (String × PyVal) → Except DbErr (List (String × PyVal))
  | [], d => .ok d
  | f :: fs, d =>
    match get_translation db self (some f) none (some lang) none with
    | .error e => .error e
    | .ok tr => addTranslations db self lang fs (dictSet d f.name (.str tr.text))

/-- `TranslatedModel.dict_with_translations` (models.py): copies
`__dict__` minus `_state`, resolves the Language (the instance argument
takes precedence over `language_id`), and overwrites/adds one entry per
translated field holding the translation text. -/
def dict_with_translations (db : DBState) (self : TRecord)
    (language : Option Language) (language_id : Option Nat) :
    Except DbErr (List (String × PyVal)) :=
  match language with
  | some l =>
    addTranslations db self.toInstance l
      (get_translated_fields db self.toInstance) self.attrs
  | none =>
    match objectsGet db.languages (fun m => optMatch language_id m.id) with
    | .error e => .error e
    | .ok l =>
      addTranslations db self.toInstance l
        (get_translated_fields db self.toInstance) self.attrs

/-- Fixture instance for the serializer: an Item reference, an opaque
value, and a `None`-valued declared field. -/
def instSerW : AttrList :=
  .cons "title" (.vItem 1) (.cons "count" (.vOther "5") (.skip "page" .nil))

/-- The dict the serializer produces for `instSerW` on the fixture store. -/
def outSerW : List (String × OutValue) :=
  [("title", .text "Bonjour"), ("count", .raw (.vOther "5"))]

/-- Fixture record: object 5 of content type 10, with its stored
`__dict__`. -/
def recW : TRecord :=
  ⟨5, 10, [("title_id", .obj "Item(1)"), ("meta_info", .obj "info")]⟩

/-- The dict `dict_with_translations` produces for `recW` on the fixture
store. -/
def outRecW : List (String × PyVal) :=
  [("title_id", .obj "Item(1)"), ("meta_info", .obj "info"),
    ("title", .str "Bonjour")]

section Helpers

/-- Two chained queryset filters count exactly the rows satisfying the
conjunction of the two predicates. -/
theorem twoFilter_length_eq_countP {α : Type} (p q : α → Bool) (l : List α) :
    ((l.filter p).filter q).length = l.countP fun a => p a && q a := by
  induction l with
  | nil => rfl
  | cons a l ih =>
    rw [List.filter_cons]
    by_cases hp : p a
    · rw [if_pos hp, List.filter_cons]
      by_cases hq : q a
      · rw [if_pos hq, List.length_cons, ih, List.countP_cons]
        simp [hp, hq]
      · rw [if_neg hq, ih, List.countP_cons]
        simp [hq]
    · rw [if_neg hp, ih, List.countP_cons]
      simp [hp]

/-- Counting is extensional over the elements of the list. -/
theorem countP_ext {α : Type} (p q : α → Bool) :
    ∀ l : List α, (∀ a ∈ l, p a = q a) → l.countP p = l.countP q := by
  intro l h
  induction l with
  | nil => rfl
  | cons a l ih =>
    rw [List.countP_cons, List.countP_cons, h a (by simp),
      ih fun b hb => h b (by simp [hb])]

/-- A list whose elements pairwise never both satisfy `p` holds at most one
element satisfying `p`. -/
theorem countP_le_one_of_pairwise {α : Type} {p : α → Bool} {l : List α}
    (h : l.Pairwise fun a b => ¬(p a = true ∧ p b = true)) : l.countP p ≤ 1 := by
  induction l with
  | nil => simp
  | cons a l ih =>
    rw [List.countP_cons]
    rcases List.pairwise_cons.mp h with ⟨ha, hl⟩
    by_cases hpa : p a
    · have hz : l.countP p = 0 :=
        List.countP_eq_zero.mpr fun b hb hpb => ha b hb ⟨hpa, hpb⟩
      simp [hz, hpa]
    · simp [hpa, ih hl]

/-- The text update rewrites only the `text` column. -/
theorem setText_preserves_keys (tid : Nat) (s : String) (t : Translation) :
    (if t.id == tid then { t with text := s } else t).id = t.id ∧
    (if t.id == tid then { t with text := s } else t).item = t.item ∧
    (if t.id == tid then { t with text := s } else t).language = t.language := by
  split <;> exact ⟨rfl, rfl, rfl⟩

/-- The key update rewrites only the `item` and `language` columns. -/
theorem setKeys_id (tid it lg : Nat) (t : Translation) :
    (if t.id == tid then { t with item := it, language := lg } else t).id = t.id := by
  split <;> rfl

/-- Every write operation preserves pairwise compatibility of the
translation table. -/
theorem applyOp_preserves_translationsInvariant {db db' : DBState} {op : DbOp}
    (h : translationsInvariant db) (hstep : applyOp db op = some db') :
    translationsInvariant db' := by
  cases op with
  | insField f =>
    replace hstep : insertField db f = some db' := hstep
    unfold insertField at hstep
    by_cases hc : (db.fields.any fun g =>
        g.id == f.id || (g.content_type == f.content_type && g.name == f.name)) = true
    · rw [if_pos hc] at hstep; exact absurd hstep (by simp)
    · rw [if_neg hc] at hstep
      injection hstep with h2; subst h2; exact h
  | insItem i =>
    replace hstep : insertItem db i = some db' := hstep
    unfold insertItem at hstep
    by_cases hc : (db.items.any fun j =>
        j.id == i.id || (j.field == i.field && j.object_id == i.object_id)) = true
    · rw [if_pos hc] at hstep; exact absurd hstep (by simp)
    · rw [if_neg hc] at hstep
      injection hstep with h2; subst h2; exact h
  | insLanguage l =>
    replace hstep : insertLanguage db l = some db' := hstep
    unfold insertLanguage at hstep
    by_cases hc : (db.languages.any fun m =>
        m.id == l.id || m.name == l.name || m.iso2 == l.iso2 ||
          m.iso3 == l.iso3 || m.django_language_name == l.django_language_name) = true
    · rw [if_pos hc] at hstep; exact absurd hstep (by simp)
    · rw [if_neg hc] at hstep
      injection hstep with h2; subst h2; exact h
  | insTranslation t =>
    replace hstep : insertTranslation db t = some db' := hstep
    unfold insertTranslation at hstep
    by_cases hc : (db.translations.any fun u =>
        u.id == t.id || (u.language == t.language && u.item == t.item)) = true
    · rw [if_pos hc] at hstep; exact absurd hstep (by simp)
    · rw [if_neg hc] at hstep
      injection hstep with h2; subst h2
      refine List.pairwise_cons.mpr ⟨fun b hb => ?_, h⟩
      have hb' : ¬(b.id == t.id || (b.language == t.language && b.item == t.item)) = true :=
        fun hx => hc (List.any_eq_true.mpr ⟨b, hb, hx⟩)
      simp only [Bool.or_eq_true, Bool.and_eq_true, beq_iff_eq, not_or, not_and] at hb'
      exact ⟨fun h1 => hb'.1 h1.symm, fun h2 => hb'.2 h2.2.symm h2.1.symm⟩
  | delField fid =>
    replace hstep : some (deleteField db fid) = some db' := hstep
    injection hstep with h2; subst h2
    exact List.Pairwise.sublist (List.filter_sublist _) h
  | delItem iid =>
    replace hstep : some (deleteItem db iid) = some db' := hstep
    injection hstep with h2; subst h2
    exact List.Pairwise.sublist (List.filter_sublist _) h
  | delLanguage lid =>
    replace hstep : some (deleteLanguage db lid) = some db' := hstep
    injection hstep with h2; subst h2
    exact List.Pairwise.sublist (List.filter_sublist _) h
  | delTranslation tid =>
    replace hstep : some (deleteTranslation db tid) = some db' := hstep
    injection hstep with h2; subst h2
    exact List.Pairwise.sublist (List.filter_sublist _) h
  | setTranslationText tid s =>
    replace hstep : some (updateTranslationText db tid s) = some db' := hstep
    injection hstep with h2; subst h2
    refine List.pairwise_map.mpr (h.imp fun {a b} hab => ?_)
    obtain ⟨ida, itema, langa⟩ := setText_preserves_keys tid s a
    obtain ⟨idb, itemb, langb⟩ := setText_preserves_keys tid s b
    exact ⟨by rw [ida, idb]; exact hab.1, by rw [itema, itemb, langa, langb]; exact hab.2⟩
  | setTranslationKeys tid it lg =>
    replace hstep : updateTranslationKeys db tid it lg = some db' := hstep
    unfold updateTranslationKeys at hstep
    by_cases hc : (db.translations.any fun u =>
        u.id != tid && u.language == lg && u.item == it) = true
    · rw [if_pos hc] at hstep; exact absurd hstep (by simp)
    · rw [if_neg hc] at hstep
      injection hstep with h2; subst h2
      have hguard : ∀ u ∈ db.translations, u.id ≠ tid → ¬(u.item = it ∧ u.language = lg) := by
        intro u hu hne hpair
        exact hc (List.any_eq_true.mpr ⟨u, hu, by
          simp [bne_iff_ne, hne, hpair.1, hpair.2]⟩)
      refine List.pairwise_map.mpr (List.Pairwise.imp_of_mem ?_ h)
      intro a b ha hb hab
      refine ⟨?_, ?_⟩
      · rw [setKeys_id, setKeys_id]; exact hab.1
      · intro hpair
        by_cases hia : a.id = tid <;> by_cases hib : b.id = tid
        · exact hab.1 (hia.trans hib.symm)
        · simp [hia, hib] at hpair
          exact hguard b hb hib ⟨hpair.1.symm, hpair.2.symm⟩
        · simp [hia, hib] at hpair
          exact hguard a ha hia ⟨hpair.1, hpair.2⟩
        · simp [hia, hib] at hpair
          exact hab.2 hpair

/-- `objects.get` succeeds exactly when the filtered table is the one
matching row. -/
theorem objectsGet_eq_ok_iff {α : Type} {l : List α} {p : α → Bool} {x : α} :
    objectsGet l p = .ok x ↔ l.filter p = [x] := by
  unfold objectsGet
  cases hf : l.filter p with
  | nil => simp
  | cons y ys =>
    cases ys with
    | nil => simp
    | cons z zs => simp

/-- `objects.get` raises `DoesNotExist` exactly when no row matches. -/
theorem objectsGet_doesNotExist_iff {α : Type} {l : List α} {p : α → Bool} :
    objectsGet l p = .error .doesNotExist ↔ l.filter p = [] := by
  unfold objectsGet
  cases hf : l.filter p with
  | nil => simp
  | cons y ys =>
    cases ys with
    | nil => simp
    | cons z zs => simp

/-- `objects.get` only fails with `DoesNotExist` or
`MultipleObjectsReturned`. -/
theorem objectsGet_error_cases {α : Type} {l : List α} {p : α → Bool} {e : DbErr}
    (h : objectsGet l p = .error e) :
    e = .doesNotExist ∨ e = .multipleObjectsReturned := by
  unfold objectsGet at h
  cases hf : l.filter p with
  | nil => rw [hf] at h; exact .inl (by injection h with h2; exact h2.symm)
  | cons y ys =>
    cases ys with
    | nil => rw [hf] at h; exact absurd h (by simp)
    | cons z zs => rw [hf] at h; exact .inr (by injection h with h2; exact h2.symm)

/-- Under a uniqueness bound, `objects.get` never reports multiple rows. -/
theorem objectsGet_ne_multiple {α : Type} {l : List α} {p : α → Bool}
    (hu : l.countP p ≤ 1) :
    objectsGet l p ≠ .error .multipleObjectsReturned := by
  unfold objectsGet
  cases hf : l.filter p with
  | nil => simp
  | cons y ys =>
    cases ys with
    | nil => simp
    | cons z zs =>
      exfalso
      rw [List.countP_eq_length_filter, hf] at hu
      simp at hu

/-- Under a uniqueness bound, `objects.get` returns any matching row. -/
theorem objectsGet_ok_of_mem {α : Type} {l : List α} {p : α → Bool}
    (hu : l.countP p ≤ 1) {x : α} (hx : x ∈ l) (hpx : p x = true) :
    objectsGet l p = .ok x := by
  rw [objectsGet_eq_ok_iff]
  have hmem : x ∈ l.filter p := List.mem_filter.mpr ⟨hx, hpx⟩
  rw [List.countP_eq_length_filter] at hu
  cases hf : l.filter p with
  | nil => rw [hf] at hmem; exact absurd hmem (List.not_mem_nil x)
  | cons y ys =>
    cases ys with
    | nil =>
      rw [hf] at hmem
      rw [List.mem_singleton] at hmem
      rw [hmem]
    | cons z zs =>
      exfalso
      rw [hf] at hu
      simp at hu

/-- A bound `Except` computation fails exactly when its first stage fails
or its first stage succeeds and the continuation fails. -/
theorem except_bind_eq_error {ε α β : Type} (ma : Except ε α)
    (k : α → Except ε β) (e : ε) :
    (ma >>= k) = .error e ↔
      (ma = .error e ∨ ∃ x, ma = .ok x ∧ k x = .error e) := by
  cases ma with
  | error e2 =>
    constructor
    · intro h
      refine .inl ?_
      have h2 : (Except.error e2 : Except ε β) = .error e := h
      injection h2 with h3
      rw [h3]
    · rintro (h | ⟨x, hx, _⟩)
      · injection h with h3
        rw [h3]; rfl
      · exact absurd hx (by simp)
  | ok x =>
    constructor
    · intro h
      exact .inr ⟨x, rfl, h⟩
    · rintro (h | ⟨y, hy, hk⟩)
      · exact absurd h (by simp)
      · injection hy with h3
        rw [← h3] at hk
        exact hk

/-- A bound `Except` computation succeeds exactly when both stages do. -/
theorem except_bind_eq_ok {ε α β : Type} (ma : Except ε α)
    (k : α → Except ε β) (b : β) :
    (ma >>= k) = .ok b ↔ ∃ x, ma = .ok x ∧ k x = .ok b := by
  cases ma with
  | error e2 =>
    constructor
    · intro h
      exact absurd (show (Except.error e2 : Except ε β) = .ok b from h) (by simp)
    · rintro ⟨x, hx, _⟩
      exact absurd hx (by simp)
  | ok x =>
    constructor
    · intro h
      exact ⟨x, rfl, h⟩
    · rintro ⟨y, hy, hk⟩
      injection hy with h3
      rw [← h3] at hk
      exact hk

/-- Reading the language with no selection in the session. -/
theorem get_language_from_session_of_no_key (db : DBState) (r : Request)
    (hsg : sessionGet r LANGUAGE_SESSION_KEY = none) :
    get_language_from_session db r = .ok none := by
  unfold get_language_from_session
  rw [hsg]

/-- Reading the language with a stored selection reduces to the lookup. -/
theorem get_language_from_session_of_key (db : DBState) (r : Request)
    (name : String) (hsg : sessionGet r LANGUAGE_SESSION_KEY = some name) :
    get_language_from_session db r =
      (if name == "" then .ok none
       else
         match objectsGet db.languages
             (fun l => l.django_language_name == name) with
         | .ok l => .ok (some l)
         | .error .doesNotExist => .ok none
         | .error e => .error e) := by
  unfold get_language_from_session
  rw [hsg]

/-- Unique locale names bound the matching rows by one. -/
theorem countP_language_name_le_one {db : DBState}
    (huniq : db.languages.Pairwise fun a b =>
      ¬ a.django_language_name = b.django_language_name) (name : String) :
    db.languages.countP (fun l => l.django_language_name == name) ≤ 1 := by
  refine countP_le_one_of_pairwise (huniq.imp fun {a b} hab => ?_)
  rintro ⟨hpa, hpb⟩
  simp only [beq_iff_eq] at hpa hpb
  exact hab (hpa.trans hpb.symm)

/-- Keys found in a prefix of an association list survive an append. -/
theorem dictGet_append_of_some {β : Type} (key : String) (w : β) :
    ∀ (d l2 : List (String × β)), dictGet d key = some w →
      dictGet (d ++ l2) key = some w
  | [], _, h => by simp [dictGet] at h
  | (pk, pv) :: rest, l2, h => by
    replace h : (if pk == key then some pv else dictGet rest key) = some w := h
    show (if pk == key then some pv else dictGet (rest ++ l2) key) = some w
    by_cases hpkey : (pk == key) = true
    · rw [if_pos hpkey] at h
      rw [if_pos hpkey]
      exact h
    · rw [if_neg hpkey] at h
      rw [if_neg hpkey]
      exact dictGet_append_of_some key w rest l2 h

/-- Keys absent from a prefix of an association list are looked up in the
suffix. -/
theorem dictGet_append_of_none {β : Type} (key : String) :
    ∀ (d l2 : List (String × β)), dictGet d key = none →
      dictGet (d ++ l2) key = dictGet l2 key
  | [], _, _ => rfl
  | (pk, pv) :: rest, l2, h => by
    replace h : (if pk == key then some pv else dictGet rest key) = none := h
    show (if pk == key then some pv else dictGet (rest ++ l2) key) = dictGet l2 key
    by_cases hpkey : (pk == key) = true
    · rw [if_pos hpkey] at h
      exact absurd h (by simp)
    · rw [if_neg hpkey] at h
      rw [if_neg hpkey]
      exact dictGet_append_of_none key rest l2 h

/-- The in-place replacement path of `dictSet` rewrites the stored value
of an existing key. -/
theorem dictGet_setmap_self (k : String) (v : PyVal) :
    ∀ d : List (String × PyVal), (dictGet d k).isSome →
      dictGet (d.map fun p => if p.1 == k then (p.1, v) else p) k = some v
  | [], h => by simp [dictGet] at h
  | (pk, pv) :: rest, h => by
    simp only [List.map_cons]
    by_cases hpk : (pk == k) = true
    · rw [if_pos hpk]
      show (if pk == k then some v else
        dictGet (rest.map fun p => if p.1 == k then (p.1, v) else p) k) = some v
      rw [if_pos hpk]
    · rw [if_neg hpk]
      show (if pk == k then some pv else
        dictGet (rest.map fun p => if p.1 == k then (p.1, v) else p) k) = some v
      rw [if_neg hpk]
      refine dictGet_setmap_self k v rest ?_
      replace h : ((if pk == k then some pv else dictGet rest k)).isSome := h
      rw [if_neg hpk] at h
      exact h

/-- The in-place replacement path of `dictSet` leaves other keys
untouched. -/
theorem dictGet_setmap_ne (k key : String) (v : PyVal) (hne : key ≠ k) :
    ∀ d : List (String × PyVal),
      dictGet (d.map fun p => if p.1 == k then (p.1, v) else p) key =
        dictGet d key
  | [] => rfl
  | (pk, pv) :: rest => by
    simp only [List.map_cons]
    by_cases hpk : (pk == k) = true
    · rw [if_pos hpk]
      show (if pk == key then some v else
          dictGet (rest.map fun p => if p.1 == k then (p.1, v) else p) key) =
        (if pk == key then some pv else dictGet rest key)
      have hpkey : (pk == key) = false := by
        rw [beq_eq_false_iff_ne]
        intro he
        exact hne (he.symm.trans (beq_iff_eq.mp hpk))
      rw [hpkey]
      simp only [Bool.false_eq_true, if_false]
      exact dictGet_setmap_ne k key v hne rest
    · rw [if_neg hpk]
      show (if pk == key then some pv else
          dictGet (rest.map fun p => if p.1 == k then (p.1, v) else p) key) =
        (if pk == key then some pv else dictGet rest key)
      by_cases hpkey : (pk == key) = true
      · rw [if_pos hpkey, if_pos hpkey]
      · rw [if_neg hpkey, if_neg hpkey]
        exact dictGet_setmap_ne k key v hne rest

/-- Reading back the key just written by `dictSet`. -/
theorem dictGet_dictSet_self (d : List (String × PyVal)) (k : String)
    (v : PyVal) : dictGet (dictSet d k v) k = some v := by
  unfold dictSet
  by_cases hs : (dictGet d k).isSome
  · rw [if_pos hs]
    exact dictGet_setmap_self k v d hs
  · rw [if_neg hs]
    rw [dictGet_append_of_none k d _ (Option.not_isSome_iff_eq_none.mp hs)]
    simp [dictGet]

/-- `dictSet` leaves every other key untouched. -/
theorem dictGet_dictSet_ne (d : List (String × PyVal)) (k key : String)
    (v : PyVal) (hne : key ≠ k) :
    dictGet (dictSet d k v) key = dictGet d key := by
  unfold dictSet
  by_cases hs : (dictGet d k).isSome
  · rw [if_pos hs]
    exact dictGet_setmap_ne k key v hne d
  · rw [if_neg hs]
    cases hd : dictGet d key with
    | some w => exact dictGet_append_of_some key w d _ hd
    | none =>
      rw [dictGet_append_of_none key d _ hd]
      have hkk : (k == key) = false := by
        rw [beq_eq_false_iff_ne]
        exact fun h => hne h.symm
      simp [dictGet, hkk]

/-- `dictSet` never removes a key. -/
theorem dictGet_dictSet_isSome (d : List (String × PyVal)) (k key : String)
    (v : PyVal) (h : (dictGet d key).isSome) :
    (dictGet (dictSet d k v) key).isSome := by
  by_cases hkk : key = k
  · subst hkk
    rw [dictGet_dictSet_self]
    rfl
  · rw [dictGet_dictSet_ne d k key v hkk]
    exact h

/-- Fields outside the processed list never change a key. -/
theorem addTranslations_dictGet_notin (db : DBState) (self : TInstance)
    (lang : Language) :
    ∀ (fs : List Field) (d out : List (String × PyVal)) (key : String),
      addTranslations db self lang fs d = .ok out →
      (∀ f ∈ fs, f.name ≠ key) →
      dictGet out key = dictGet d key
  | [], d, out, key, hok, _ => by
    injection hok with h2
    rw [← h2]
  | f :: fs, d, out, key, hok, hni => by
    replace hok : (match get_translation db self (some f) none (some lang) none with
      | .error e => (.error e : Except DbErr (List (String × PyVal)))
      | .ok tr =>
        addTranslations db self lang fs (dictSet d f.name (.str tr.text))) =
        .ok out := hok
    cases hg : get_translation db self (some f) none (some lang) none with
    | error e =>
      rw [hg] at hok
      exact absurd hok (by simp)
    | ok tr =>
      rw [hg] at hok
      rw [addTranslations_dictGet_notin db self lang fs
        (dictSet d f.name (.str tr.text)) out key hok
        (fun g hg2 => hni g (List.mem_cons_of_mem f hg2))]
      exact dictGet_dictSet_ne d f.name key _
        (fun he => hni f (List.mem_cons_self f fs) he.symm)

/-- Each processed field ends up bound to its translation text. -/
theorem addTranslations_dictGet_found (db : DBState) (self : TInstance)
    (lang : Language) :
    ∀ (fs : List Field) (d out : List (String × PyVal)) (f : Field),
      addTranslations db self lang fs d = .ok out →
      (fs.map Field.name).Nodup →
      f ∈ fs →
      ∃ tr, get_translation db self (some f) none (some lang) none = .ok tr ∧
        dictGet out f.name = some (.str tr.text)
  | [], _, _, f, _, _, hmem => absurd hmem (List.not_mem_nil f)
  | g :: fs, d, out, f, hok, hnd, hmem => by
    replace hok : (match get_translation db self (some g) none (some lang) none with
      | .error e => (.error e : Except DbErr (List (String × PyVal)))
      | .ok tr =>
        addTranslations db self lang fs (dictSet d g.name (.str tr.text))) =
        .ok out := hok
    cases hg : get_translation db self (some g) none (some lang) none with
    | error e =>
      rw [hg] at hok
      exact absurd hok (by simp)
    | ok tr =>
      rw [hg] at hok
      rcases List.mem_cons.mp hmem with he | hmem2
      · subst he
        refine ⟨tr, hg, ?_⟩
        rw [addTranslations_dictGet_notin db self lang fs _ out f.name hok ?_]
        · exact dictGet_dictSet_self d f.name _
        · intro g2 hg2 he2
          have hx : f.name ∈ fs.map Field.name := by
            rw [← he2]
            exact List.mem_map_of_mem Field.name hg2
          exact (List.nodup_cons.mp hnd).1 hx
      · exact addTranslations_dictGet_found db self lang fs _ out f hok
          (List.nodup_cons.mp hnd).2 hmem2

/-- The loop never removes a key. -/
theorem addTranslations_dictGet_isSome (db : DBState) (self : TInstance)
    (lang : Language) :
    ∀ (fs : List Field) (d out : List (String × PyVal)) (key : String),
      addTranslations db self lang fs d = .ok out →
      (dictGet d key).isSome → (dictGet out key).isSome
  | [], d, out, key, hok, h => by
    injection hok with h2
    rw [← h2]
    exact h
  | f :: fs, d, out, key, hok, h => by
    replace hok : (match get_translation db self (some f) none (some lang) none with
      | .error e => (.error e : Except DbErr (List (String × PyVal)))
      | .ok tr =>
        addTranslations db self lang fs (dictSet d f.name (.str tr.text))) =
        .ok out := hok
    cases hg : get_translation db self (some f) none (some lang) none with
    | error e =>
      rw [hg] at hok
      exact absurd hok (by simp)
    | ok tr =>
      rw [hg] at hok
      exact addTranslations_dictGet_isSome db self lang fs _ out key hok
        (dictGet_dictSet_isSome d f.name key _ h)

/-- A name outside the declared names resolves to no value. -/
theorem declaredValue_eq_none_of_not_mem :
    ∀ (inst : AttrList) (key : String), key ∉ inst.declaredNames →
      inst.declaredValue key = none
  | .nil, _, _ => rfl
  | .skip n rest, key, h => by
    have hn : (n == key) = false := by
      rw [beq_eq_false_iff_ne]
      intro he
      exact h (by
        show key ∈ n :: rest.declaredNames
        rw [he]
        exact List.mem_cons_self key _)
    show (if n == key then none else rest.declaredValue key) = none
    rw [hn]
    simp only [Bool.false_eq_true, if_false]
    exact declaredValue_eq_none_of_not_mem rest key
      (fun hm => h (List.mem_cons_of_mem n hm))
  | .cons n v rest, key, h => by
    have hn : (n == key) = false := by
      rw [beq_eq_false_iff_ne]
      intro he
      exact h (by
        show key ∈ n :: rest.declaredNames
        rw [he]
        exact List.mem_cons_self key _)
    show (if n == key then some v else rest.declaredValue key) = none
    rw [hn]
    simp only [Bool.false_eq_true, if_false]
    exact declaredValue_eq_none_of_not_mem rest key
      (fun hm => h (List.mem_cons_of_mem n hm))

/-- A successful per-value serialization satisfies the case analysis. -/
theorem serializeValue_serializedAs (db : DBState) (depth : Bool)
    (l : Language) (v : AttrValue) (ov : OutValue)
    (hv : serializeValue db depth (some l) v = .ok ov) :
    serializedAs db depth l v ov := by
  cases v with
  | vItem iid =>
    replace hv : (match objectsGet db.translations
        (fun t => t.item == iid && t.language == l.id) with
      | .ok t => (.ok (.text t.text) : Except DbErr OutValue)
      | .error e => .error e) = .ok ov := hv
    cases hog : objectsGet db.translations
        (fun t => t.item == iid && t.language == l.id) with
    | error e =>
      rw [hog] at hv
      exact absurd hv (by simp)
    | ok t =>
      rw [hog] at hv
      injection hv with h2
      rw [objectsGet_eq_ok_iff] at hog
      have hmem : t ∈ db.translations.filter
          (fun t => t.item == iid && t.language == l.id) := by
        rw [hog]
        exact List.mem_singleton.mpr rfl
      rw [List.mem_filter] at hmem
      have hp := hmem.2
      simp only [Bool.and_eq_true, beq_iff_eq] at hp
      exact ⟨t, hmem.1, hp.1, hp.2, h2.symm⟩
  | vModel sub =>
    replace hv : (if depth then
        match serializeAttrs db true (some l) sub with
        | .ok d => (.ok (.subdict d) : Except DbErr OutValue)
        | .error e => .error e
      else .ok (.raw (.vModel sub))) = .ok ov := hv
    show if depth then
        ∃ d, serializeAttrs db true (some l) sub = .ok d ∧ ov = .subdict d
      else ov = .raw (.vModel sub)
    by_cases hd : depth = true
    · rw [if_pos hd] at hv
      rw [if_pos hd]
      cases hs : serializeAttrs db true (some l) sub with
      | error e =>
        rw [hs] at hv
        exact absurd hv (by simp)
      | ok d =>
        rw [hs] at hv
        injection hv with h2
        exact ⟨d, rfl, h2.symm⟩
    · rw [if_neg hd] at hv
      rw [if_neg hd]
      injection hv with h2
      exact h2.symm
  | vFile f =>
    cases f with
    | some ft =>
      replace hv : (.ok (.filedict ft) : Except DbErr OutValue) = .ok ov := hv
      injection hv with h2
      show ov = .filedict ft
      exact h2.symm
    | none =>
      replace hv : (.ok (.text "") : Except DbErr OutValue) = .ok ov := hv
      injection hv with h2
      show ov = .text ""
      exact h2.symm
  | vOther s =>
    replace hv : (.ok (.raw (.vOther s)) : Except DbErr OutValue) = .ok ov := hv
    injection hv with h2
    show ov = .raw (.vOther s)
    exact h2.symm

/-- The field loop binds every non-`None` declared attribute according to
the case analysis and omits the `None`-valued ones. -/
theorem serializeAttrs_dictGet (db : DBState) (depth : Bool) (l : Language) :
    ∀ (inst : AttrList) (out : List (String × OutValue)),
      serializeAttrs db depth (some l) inst = .ok out →
      inst.declaredNames.Nodup →
      ((∀ name v, inst.declaredValue name = some v →
          ∃ ov, dictGet out name = some ov ∧ serializedAs db depth l v ov) ∧
        (∀ name, inst.declaredValue name = none → dictGet out name = none))
  | .nil, out, hok, _ => by
    injection hok with h2
    constructor
    · intro name v hdv
      exact absurd hdv (by simp [AttrList.declaredValue])
    · intro name _
      rw [← h2]
      rfl
  | .skip n rest, out, hok, hnd => by
    replace hok : serializeAttrs db depth (some l) rest = .ok out := hok
    have hnd' : (n :: rest.declaredNames).Nodup := hnd
    obtain ⟨ih1, ih2⟩ := serializeAttrs_dictGet db depth l rest out hok
      (List.nodup_cons.mp hnd').2
    constructor
    · intro name v hdv
      replace hdv : (if n == name then none else rest.declaredValue name) =
        some v := hdv
      by_cases hn : (n == name) = true
      · rw [if_pos hn] at hdv
        exact absurd hdv (by simp)
      · rw [if_neg hn] at hdv
        exact ih1 name v hdv
    · intro name hdv
      replace hdv : (if n == name then none else rest.declaredValue name) =
        none := hdv
      by_cases hn : (n == name) = true
      · have hh : name ∉ rest.declaredNames := by
          rw [← beq_iff_eq.mp hn]
          exact (List.nodup_cons.mp hnd').1
        exact ih2 name (declaredValue_eq_none_of_not_mem rest name hh)
      · rw [if_neg hn] at hdv
        exact ih2 name hdv
  | .cons n v0 rest, out, hok, hnd => by
    replace hok : (match serializeValue db depth (some l) v0 with
      | .error e => (.error e : Except DbErr (List (String × OutValue)))
      | .ok ov =>
        match serializeAttrs db depth (some l) rest with
        | .error e => .error e
        | .ok d => .ok ((n, ov) :: d)) = .ok out := hok
    cases hv : serializeValue db depth (some l) v0 with
    | error e =>
      rw [hv] at hok
      exact absurd hok (by simp)
    | ok ov =>
      rw [hv] at hok
      cases hr : serializeAttrs db depth (some l) rest with
      | error e =>
        rw [hr] at hok
        exact absurd hok (by simp)
      | ok d =>
        rw [hr] at hok
        injection hok with h2
        have hnd' : (n :: rest.declaredNames).Nodup := hnd
        obtain ⟨ih1, ih2⟩ := serializeAttrs_dictGet db depth l rest d hr
          (List.nodup_cons.mp hnd').2
        constructor
        · intro name v hdv
          replace hdv : (if n == name then some v0 else
            rest.declaredValue name) = some v := hdv
          by_cases hn : (n == name) = true
          · rw [if_pos hn] at hdv
            injection hdv with h3
            refine ⟨ov, ?_, ?_⟩
            · rw [← h2]
              show (if n == name then some ov else dictGet d name) = some ov
              rw [if_pos hn]
            · rw [← h3]
              exact serializeValue_serializedAs db depth l v0 ov hv
          · rw [if_neg hn] at hdv
            obtain ⟨ov2, hget, hcase⟩ := ih1 name v hdv
            refine ⟨ov2, ?_, hcase⟩
            rw [← h2]
            show (if n == name then some ov else dictGet d name) = some ov2
            rw [if_neg hn]
            exact hget
        · intro name hdv
          replace hdv : (if n == name then some v0 else
            rest.declaredValue name) = none := hdv
          by_cases hn : (n == name) = true
          · rw [if_pos hn] at hdv
            exact absurd hdv (by simp)
          · rw [if_neg hn] at hdv
            rw [← h2]
            show (if n == name then some ov else dictGet d name) = none
            rw [if_neg hn]
            exact ih2 name hdv

/-- A successful `objects.get` returns a member satisfying the
predicate. -/
theorem objectsGet_ok_elim {α : Type} {l : List α} {p : α → Bool} {x : α}
    (h : objectsGet l p = .ok x) : x ∈ l ∧ p x = true := by
  rw [objectsGet_eq_ok_iff] at h
  have hmem : x ∈ l.filter p := by
    rw [h]
    exact List.mem_singleton.mpr rfl
  rw [List.mem_filter] at hmem
  exact hmem

/-- Under a uniqueness bound, any matching member is the returned row. -/
theorem objectsGet_unique_ok {α : Type} {l : List α} {p : α → Bool} {x y : α}
    (h : objectsGet l p = .ok x) (hy : y ∈ l) (hpy : p y = true)
    (hu : l.countP p ≤ 1) : y = x := by
  have h2 := objectsGet_ok_of_mem hu hy hpy
  rw [h] at h2
  injection h2 with h3
  exact h3.symm

/-- `objects.get` raises `DoesNotExist` when nothing matches. -/
theorem objectsGet_dne_of_no_match {α : Type} {l : List α} {p : α → Bool}
    (h : ∀ x ∈ l, ¬ p x = true) :
    objectsGet l p = .error .doesNotExist := by
  rw [objectsGet_doesNotExist_iff, List.filter_eq_nil_iff]
  exact h

end Helpers

/-- C5: for every Language instance, after `save` the stored `iso2` and
`iso3` equal the uppercase of the values assigned before saving, and the
`id`, `name` and `django_language_name` columns are stored unchanged. -/
theorem language_save_uppercases_iso_codes (self : Language) :
    (Language.save self).iso2 = self.iso2.toUpper ∧
    (Language.save self).iso3 = self.iso3.toUpper ∧
    (Language.save self).id = self.id ∧
    (Language.save self).name = self.name ∧
    (Language.save self).django_language_name = self.django_language_name :=
  ⟨rfl, rfl, rfl, rfl, rfl⟩

/-- C4: `count_missing_translations` on Field, Item and Language each equal
the number of Translation rows with empty text under the corresponding
filter: item's field is the Field, item is the Item, language is the
Language. -/
theorem count_missing_translations_eq_spec (db : DBState) (f : Field)
    (i : Item) (l : Language) :
    Field.count_missing_translations db f = specMissingForField db f ∧
    Item.count_missing_translations db i = specMissingForItem db i ∧
    Language.count_missing_translations db l = specMissingForLanguage db l := by
  refine ⟨?_, ?_, ?_⟩
  · rw [Field.count_missing_translations, specMissingForField,
      twoFilter_length_eq_countP]
    refine countP_ext _ _ _ fun t _ => ?_
    rw [Bool.eq_iff_iff]
    simp [List.any_eq_true]
  · rw [Item.count_missing_translations, specMissingForItem,
      twoFilter_length_eq_countP]
    refine countP_ext _ _ _ fun t _ => ?_
    rw [Bool.eq_iff_iff]
    simp
  · rw [Language.count_missing_translations, specMissingForLanguage,
      twoFilter_length_eq_countP]
    refine countP_ext _ _ _ fun t _ => ?_
    rw [Bool.eq_iff_iff]
    simp

/-- C2: deleting a Field removes exactly the cascade closure: every Item
referencing the Field and every Translation referencing one of those Items
disappear, the other Items and Translations survive, other Fields survive,
and Languages are untouched. -/
theorem deleteField_cascade_closure (db : DBState) (fid : Nat) :
    (deleteField db fid).fields = db.fields.filter (fun f => f.id != fid) ∧
    (deleteField db fid).items = db.items.filter (fun i => i.field != fid) ∧
    (∀ t : Translation, t ∈ (deleteField db fid).translations ↔
      (t ∈ db.translations ∧ ¬ ∃ i ∈ db.items, i.field = fid ∧ i.id = t.item)) ∧
    (deleteField db fid).languages = db.languages := by
  refine ⟨rfl, rfl, fun t => ?_, rfl⟩
  simp only [deleteField, List.mem_filter, Bool.not_eq_true', List.any_eq_false,
    beq_iff_eq]
  aesop

/-- C3: in every reachable database state, any (item, language) pair is
carried by at most one Translation row; every write operation preserves
this invariant. -/
theorem reachable_translation_uniqueness (db : DBState) (h : Reachable db) :
    ∀ it lg : Nat,
      (db.translations.countP fun t => t.item == it && t.language == lg) ≤ 1 := by
  have hinv : translationsInvariant db := by
    induction h with
    | empty => exact List.Pairwise.nil
    | step op hr hs ih => exact applyOp_preserves_translationsInvariant ih hs
  intro it lg
  refine countP_le_one_of_pairwise (hinv.imp fun {a b} hab => ?_)
  rintro ⟨hpa, hpb⟩
  simp only [Bool.and_eq_true, beq_iff_eq] at hpa hpb
  exact hab.2 ⟨hpa.1.trans hpb.1.symm, hpa.2.trans hpb.2.symm⟩

/-- Witness for C3: the state reached from the empty store by inserting one
Translation row satisfies the uniqueness bound at the pair (1, 1). -/
theorem reachable_translation_uniqueness_witness :
    (dbOneTranslation.translations.countP fun t =>
      t.item == 1 && t.language == 1) ≤ 1 :=
  reachable_translation_uniqueness dbOneTranslation
    (Reachable.step (DbOp.insTranslation ⟨1, 1, 1, ""⟩) Reachable.empty rfl) 1 1

/-- C7: with the declared uniqueness constraints in force, the mixin
lookups `get_translated_field`, `get_translated_item` and `get_translation`
fail with `DoesNotExist` exactly when no row matches the supplied
arguments, and return the matching row when one exists — in every
resolution mode: the field supplied as an instance or resolved through
`field_name`, and the language supplied as an instance or resolved through
`language_id` (`Language.objects.get(pk=language_id)`), so that a missing
Field, Item, Language or Translation row each surfaces as not-found. -/
theorem mixin_lookups_not_found_iff (db : DBState) (self : TInstance)
    (fname : String) (lid : Nat) (f0 : Field) (l0 : Language)
    (hfld : db.fields.Pairwise fun a b =>
      ¬(a.content_type = b.content_type ∧ a.name = b.name))
    (hitm : db.items.Pairwise fun a b =>
      ¬(a.field = b.field ∧ a.object_id = b.object_id))
    (hlng : db.languages.Pairwise fun a b => a.id ≠ b.id)
    (htr : db.translations.Pairwise fun a b =>
      ¬(a.item = b.item ∧ a.language = b.language)) :
    ((get_translated_field db self (some fname) = .error .doesNotExist ↔
        ¬∃ f ∈ db.fields, f.content_type = self.content_type ∧ f.name = fname) ∧
      (∀ f ∈ db.fields, f.content_type = self.content_type → f.name = fname →
        get_translated_field db self (some fname) = .ok f)) ∧
    ((get_translated_item db self (some f0) none = .error .doesNotExist ↔
        ¬∃ i ∈ db.items, i.object_id = self.id ∧ i.field = f0.id) ∧
      (∀ i ∈ db.items, i.object_id = self.id → i.field = f0.id →
        get_translated_item db self (some f0) none = .ok i)) ∧
    ((get_translated_item db self none (some fname) = .error .doesNotExist ↔
        ¬∃ f ∈ db.fields, (f.content_type = self.content_type ∧ f.name = fname) ∧
          ∃ i ∈ db.items, i.object_id = self.id ∧ i.field = f.id) ∧
      (∀ f ∈ db.fields, f.content_type = self.content_type → f.name = fname →
        ∀ i ∈ db.items, i.object_id = self.id → i.field = f.id →
          get_translated_item db self none (some fname) = .ok i)) ∧
    ((get_translation db self (some f0) none (some l0) none =
          .error .doesNotExist ↔
        ¬∃ i ∈ db.items, (i.object_id = self.id ∧ i.field = f0.id) ∧
          ∃ t ∈ db.translations, t.item = i.id ∧ t.language = l0.id) ∧
      (∀ i ∈ db.items, i.object_id = self.id → i.field = f0.id →
        ∀ t ∈ db.translations, t.item = i.id → t.language = l0.id →
          get_translation db self (some f0) none (some l0) none = .ok t)) ∧
    ((get_translation db self none (some fname) none (some lid) =
          .error .doesNotExist ↔
        ¬∃ f ∈ db.fields, (f.content_type = self.content_type ∧ f.name = fname) ∧
          ∃ i ∈ db.items, (i.object_id = self.id ∧ i.field = f.id) ∧
            ∃ l ∈ db.languages, l.id = lid ∧
              ∃ t ∈ db.translations, t.item = i.id ∧ t.language = l.id) ∧
      (∀ f ∈ db.fields, f.content_type = self.content_type → f.name = fname →
        ∀ i ∈ db.items, i.object_id = self.id → i.field = f.id →
          ∀ l ∈ db.languages, l.id = lid →
            ∀ t ∈ db.translations, t.item = i.id → t.language = l.id →
              get_translation db self none (some fname) none (some lid) =
                .ok t)) := by
  have huF : db.fields.countP (fun f =>
      f.content_type == self.content_type && optMatch (some fname) f.name) ≤ 1 := by
    refine countP_le_one_of_pairwise (hfld.imp fun {a b} hab => ?_)
    rintro ⟨hpa, hpb⟩
    simp only [optMatch, Bool.and_eq_true, beq_iff_eq] at hpa hpb
    exact hab ⟨hpa.1.trans hpb.1.symm, hpa.2.symm.trans hpb.2⟩
  have huI : ∀ fid : Nat, db.items.countP
      (fun i => i.object_id == self.id && i.field == fid) ≤ 1 := by
    intro fid
    refine countP_le_one_of_pairwise (hitm.imp fun {a b} hab => ?_)
    rintro ⟨hpa, hpb⟩
    simp only [Bool.and_eq_true, beq_iff_eq] at hpa hpb
    exact hab ⟨hpa.2.trans hpb.2.symm, hpa.1.trans hpb.1.symm⟩
  have huL : db.languages.countP (fun m => optMatch (some lid) m.id) ≤ 1 := by
    refine countP_le_one_of_pairwise (hlng.imp fun {a b} hab => ?_)
    rintro ⟨hpa, hpb⟩
    simp only [optMatch, beq_iff_eq] at hpa hpb
    exact hab (hpa.symm.trans hpb)
  have huT : ∀ iid lgid : Nat, db.translations.countP
      (fun t => t.item == iid && t.language == lgid) ≤ 1 := by
    intro iid lgid
    refine countP_le_one_of_pairwise (htr.imp fun {a b} hab => ?_)
    rintro ⟨hpa, hpb⟩
    simp only [Bool.and_eq_true, beq_iff_eq] at hpa hpb
    exact hab ⟨hpa.1.trans hpb.1.symm, hpa.2.trans hpb.2.symm⟩
  have hgtf : get_translated_field db self (some fname) =
      objectsGet db.fields (fun f =>
        f.content_type == self.content_type && optMatch (some fname) f.name) := rfl
  have hgti1 : get_translated_item db self (some f0) none =
      objectsGet db.items
        (fun i => i.object_id == self.id && i.field == f0.id) := rfl
  have hgti2 : get_translated_item db self none (some fname) =
      (objectsGet db.fields (fun f =>
          f.content_type == self.content_type && optMatch (some fname) f.name)) >>=
        fun f => objectsGet db.items fun i =>
          i.object_id == self.id && i.field == f.id := rfl
  have hgt1 : get_translation db self (some f0) none (some l0) none =
      (objectsGet db.items fun i =>
          i.object_id == self.id && i.field == f0.id) >>=
        fun item => objectsGet db.translations fun t =>
          t.item == item.id && t.language == l0.id := rfl
  have hgt2 : get_translation db self none (some fname) none (some lid) =
      (get_translated_item db self none (some fname)) >>= fun item =>
        (objectsGet db.languages fun m => optMatch (some lid) m.id) >>=
          fun lang => objectsGet db.translations fun t =>
            t.item == item.id && t.language == lang.id := rfl
  have hAerr : ∀ e, get_translated_item db self none (some fname) = .error e →
      e = .doesNotExist := by
    intro e he
    rw [hgti2, except_bind_eq_error] at he
    rcases he with h | ⟨f, hok, h⟩
    · rcases objectsGet_error_cases h with h2 | h2
      · exact h2
      · exact absurd (h2 ▸ h) (objectsGet_ne_multiple huF)
    · rcases objectsGet_error_cases h with h2 | h2
      · exact h2
      · exact absurd (h2 ▸ h) (objectsGet_ne_multiple (huI f.id))
  have hAok : ∀ item, get_translated_item db self none (some fname) = .ok item →
      ∃ f ∈ db.fields, (f.content_type = self.content_type ∧ f.name = fname) ∧
        item ∈ db.items ∧ item.object_id = self.id ∧ item.field = f.id := by
    intro item hA
    rw [hgti2, except_bind_eq_ok] at hA
    obtain ⟨f, hokF, hokI⟩ := hA
    obtain ⟨hfmem, hpf⟩ := objectsGet_ok_elim hokF
    obtain ⟨himem, hpi⟩ := objectsGet_ok_elim hokI
    simp only [optMatch, Bool.and_eq_true, beq_iff_eq] at hpf hpi
    exact ⟨f, hfmem, ⟨hpf.1, hpf.2.symm⟩, himem, hpi.1, hpi.2⟩
  refine ⟨⟨?_, ?_⟩, ⟨?_, ?_⟩, ⟨?_, ?_⟩, ⟨?_, ?_⟩, ⟨?_, ?_⟩⟩
  · rw [hgtf, objectsGet_doesNotExist_iff, List.filter_eq_nil_iff]
    constructor
    · rintro hall ⟨f, hf, h1, h2⟩
      exact hall f hf (by simp [optMatch, h1, h2])
    · intro hnone f hf hp
      simp only [optMatch, Bool.and_eq_true, beq_iff_eq] at hp
      exact hnone ⟨f, hf, hp.1, hp.2.symm⟩
  · intro f hf h1 h2
    rw [hgtf]
    exact objectsGet_ok_of_mem huF hf (by simp [optMatch, h1, h2])
  · rw [hgti1, objectsGet_doesNotExist_iff, List.filter_eq_nil_iff]
    constructor
    · rintro hall ⟨i, hi, h1, h2⟩
      exact hall i hi (by simp [h1, h2])
    · intro hnone i hi hp
      simp only [Bool.and_eq_true, beq_iff_eq] at hp
      exact hnone ⟨i, hi, hp.1, hp.2⟩
  · intro i hi h1 h2
    rw [hgti1]
    exact objectsGet_ok_of_mem (huI f0.id) hi (by simp [h1, h2])
  · rw [hgti2, except_bind_eq_error]
    constructor
    · rintro (hdne | ⟨f, hokF, hdne⟩)
      · rw [objectsGet_doesNotExist_iff, List.filter_eq_nil_iff] at hdne
        rintro ⟨f, hf, ⟨h1, h2⟩, _⟩
        exact hdne f hf (by simp [optMatch, h1, h2])
      · rw [objectsGet_doesNotExist_iff, List.filter_eq_nil_iff] at hdne
        rintro ⟨f2, hf2, ⟨h1, h2⟩, i, hi, hio, hif⟩
        have hf2f : f2 = f :=
          objectsGet_unique_ok hokF hf2 (by simp [optMatch, h1, h2]) huF
        subst hf2f
        exact hdne i hi (by simp [hio, hif])
    · intro hnone
      cases hcase : objectsGet db.fields (fun f =>
          f.content_type == self.content_type && optMatch (some fname) f.name) with
      | error e =>
        rcases objectsGet_error_cases hcase with h | h
        · subst h; exact .inl rfl
        · subst h; exact absurd hcase (objectsGet_ne_multiple huF)
      | ok f =>
        refine .inr ⟨f, rfl, ?_⟩
        obtain ⟨hfmem, hpf⟩ := objectsGet_ok_elim hcase
        simp only [optMatch, Bool.and_eq_true, beq_iff_eq] at hpf
        apply objectsGet_dne_of_no_match
        intro i hi hp
        simp only [Bool.and_eq_true, beq_iff_eq] at hp
        exact hnone ⟨f, hfmem, ⟨hpf.1, hpf.2.symm⟩, i, hi, hp.1, hp.2⟩
  · intro f hf h1 h2 i hi hio hif
    rw [hgti2, except_bind_eq_ok]
    refine ⟨f, objectsGet_ok_of_mem huF hf (by simp [optMatch, h1, h2]), ?_⟩
    exact objectsGet_ok_of_mem (huI f.id) hi (by simp [hio, hif])
  · rw [hgt1, except_bind_eq_error]
    constructor
    · rintro (hdne | ⟨item, hok, hdne⟩)
      · rw [objectsGet_doesNotExist_iff, List.filter_eq_nil_iff] at hdne
        rintro ⟨i, hi, ⟨h1, h2⟩, _⟩
        exact hdne i hi (by simp [h1, h2])
      · rw [objectsGet_doesNotExist_iff, List.filter_eq_nil_iff] at hdne
        rintro ⟨i, hi, ⟨h1, h2⟩, t, ht, ht1, ht2⟩
        have hii : i = item :=
          objectsGet_unique_ok hok hi (by simp [h1, h2]) (huI f0.id)
        subst hii
        exact hdne t ht (by simp [ht1, ht2])
    · intro hnone
      cases hcase : objectsGet db.items
          (fun i => i.object_id == self.id && i.field == f0.id) with
      | error e =>
        rcases objectsGet_error_cases hcase with h | h
        · subst h; exact .inl rfl
        · subst h; exact absurd hcase (objectsGet_ne_multiple (huI f0.id))
      | ok item =>
        refine .inr ⟨item, rfl, ?_⟩
        obtain ⟨himem, hpi⟩ := objectsGet_ok_elim hcase
        simp only [Bool.and_eq_true, beq_iff_eq] at hpi
        apply objectsGet_dne_of_no_match
        intro t ht hp
        simp only [Bool.and_eq_true, beq_iff_eq] at hp
        exact hnone ⟨item, himem, ⟨hpi.1, hpi.2⟩, t, ht, hp.1, hp.2⟩
  · intro i hi h1 h2 t ht ht1 ht2
    rw [hgt1, except_bind_eq_ok]
    refine ⟨i, objectsGet_ok_of_mem (huI f0.id) hi (by simp [h1, h2]), ?_⟩
    exact objectsGet_ok_of_mem (huT i.id l0.id) ht (by simp [ht1, ht2])
  · rw [hgt2, except_bind_eq_error]
    constructor
    · rintro (hdneA | ⟨item, hokA, hdneB⟩)
      · rintro ⟨f2, hf2, hm2, i2, hi2, ⟨hio2, hif2⟩, _⟩
        rw [hgti2, except_bind_eq_error] at hdneA
        rcases hdneA with h | ⟨f, hokF, h⟩
        · rw [objectsGet_doesNotExist_iff, List.filter_eq_nil_iff] at h
          exact h f2 hf2 (by simp [optMatch, hm2.1, hm2.2])
        · rw [objectsGet_doesNotExist_iff, List.filter_eq_nil_iff] at h
          have hf2f : f2 = f :=
            objectsGet_unique_ok hokF hf2 (by simp [optMatch, hm2.1, hm2.2]) huF
          subst hf2f
          exact h i2 hi2 (by simp [hio2, hif2])
      · rw [hgti2, except_bind_eq_ok] at hokA
        obtain ⟨f, hokF, hokI⟩ := hokA
        rw [except_bind_eq_error] at hdneB
        rintro ⟨f2, hf2, hm2, i2, hi2, ⟨hio2, hif2⟩, l2, hl2, hml2, t2, ht2, hmt2⟩
        have hf2f : f2 = f :=
          objectsGet_unique_ok hokF hf2 (by simp [optMatch, hm2.1, hm2.2]) huF
        subst hf2f
        have hi2item : i2 = item :=
          objectsGet_unique_ok hokI hi2 (by simp [hio2, hif2]) (huI f2.id)
        subst hi2item
        rcases hdneB with hdneL | ⟨lang, hokL, hdneT⟩
        · rw [objectsGet_doesNotExist_iff, List.filter_eq_nil_iff] at hdneL
          exact hdneL l2 hl2 (by simp [optMatch, hml2])
        · have hl2lang : l2 = lang :=
            objectsGet_unique_ok hokL hl2 (by simp [optMatch, hml2]) huL
          subst hl2lang
          rw [objectsGet_doesNotExist_iff, List.filter_eq_nil_iff] at hdneT
          exact hdneT t2 ht2 (by simp [hmt2.1, hmt2.2])
    · intro hnone
      cases hcaseA : get_translated_item db self none (some fname) with
      | error e =>
        have he := hAerr e hcaseA
        subst he
        exact .inl rfl
      | ok item =>
        refine .inr ⟨item, rfl, ?_⟩
        obtain ⟨f, hfmem, hmf, himem, hio, hif⟩ := hAok item hcaseA
        rw [except_bind_eq_error]
        cases hcaseL : objectsGet db.languages
            (fun m => optMatch (some lid) m.id) with
        | error e2 =>
          rcases objectsGet_error_cases hcaseL with h | h
          · subst h; exact .inl rfl
          · subst h; exact absurd hcaseL (objectsGet_ne_multiple huL)
        | ok lang =>
          refine .inr ⟨lang, rfl, ?_⟩
          obtain ⟨hlmem, hpl⟩ := objectsGet_ok_elim hcaseL
          simp only [optMatch, beq_iff_eq] at hpl
          apply objectsGet_dne_of_no_match
          intro t ht hp
          simp only [Bool.and_eq_true, beq_iff_eq] at hp
          exact hnone ⟨f, hfmem, hmf, item, himem, ⟨hio, hif⟩, lang, hlmem,
            hpl.symm, t, ht, hp.1, hp.2⟩
  · intro f hf h1 h2 i hi hio hif l hl hlid t ht ht1 ht2
    rw [hgt2, except_bind_eq_ok]
    refine ⟨i, ?_, ?_⟩
    · rw [hgti2, except_bind_eq_ok]
      refine ⟨f, objectsGet_ok_of_mem huF hf (by simp [optMatch, h1, h2]), ?_⟩
      exact objectsGet_ok_of_mem (huI f.id) hi (by simp [hio, hif])
    · rw [except_bind_eq_ok]
      refine ⟨l, objectsGet_ok_of_mem huL hl (by simp [optMatch, hlid]), ?_⟩
      exact objectsGet_ok_of_mem (huT i.id l.id) ht (by simp [ht1, ht2])

/-- Witness for C7: on the fixture store, each lookup returns the stored
row in both the instance-supplied and the name/id-resolved modes. -/
theorem mixin_lookups_not_found_iff_witness :
    get_translated_field dbW selfW (some "title") = .ok fieldW ∧
    get_translated_item dbW selfW none (some "title") = .ok itemW ∧
    get_translation dbW selfW none (some "title") none (some 1) =
      .ok translationW := by
  have H := mixin_lookups_not_found_iff dbW selfW "title" 1 fieldW langW
    (by decide) (by decide) (by decide) (by decide)
  refine ⟨?_, ?_, ?_⟩
  · exact H.1.2 fieldW (by decide) (by decide) (by decide)
  · exact H.2.2.1.2 fieldW (by decide) (by decide) (by decide)
      itemW (by decide) (by decide) (by decide)
  · exact H.2.2.2.2.2 fieldW (by decide) (by decide) (by decide)
      itemW (by decide) (by decide) (by decide)
      langW (by decide) (by decide)
      translationW (by decide) (by decide) (by decide)

/-- C8: storing a Language selection through `update_user_language` puts
its locale identifier in the session and activates it, and
`get_language_from_session` then resolves the very same Language row
(locale names being unique and non-empty), so presentation-layer and
database-layer selection agree. -/
theorem update_then_get_language_roundtrip (db : DBState) (request : Request)
    (language : Language)
    (hmem : language ∈ db.languages)
    (huniq : db.languages.Pairwise fun a b =>
      ¬ a.django_language_name = b.django_language_name)
    (hne : language.django_language_name ≠ "") :
    update_user_language db request (some language) none =
      .ok (sessionSet request LANGUAGE_SESSION_KEY language.django_language_name,
        language.django_language_name) ∧
    sessionGet (sessionSet request LANGUAGE_SESSION_KEY
        language.django_language_name) LANGUAGE_SESSION_KEY =
      some language.django_language_name ∧
    get_language_from_session db
        (sessionSet request LANGUAGE_SESSION_KEY language.django_language_name) =
      .ok (some language) := by
  refine ⟨rfl, rfl, ?_⟩
  have hsg : sessionGet (sessionSet request LANGUAGE_SESSION_KEY
      language.django_language_name) LANGUAGE_SESSION_KEY =
      some language.django_language_name := rfl
  rw [get_language_from_session_of_key db _ language.django_language_name hsg]
  rw [if_neg (by simpa using hne)]
  rw [objectsGet_ok_of_mem (countP_language_name_le_one huniq _) hmem (by simp)]

/-- Witness for C8: on the fixture store, selecting the fixture language
stores `fr-fr` and reading it back returns the fixture language. -/
theorem update_then_get_language_roundtrip_witness :
    update_user_language dbW reqW (some langW) none =
      .ok (sessionSet reqW LANGUAGE_SESSION_KEY langW.django_language_name,
        langW.django_language_name) ∧
    sessionGet (sessionSet reqW LANGUAGE_SESSION_KEY
        langW.django_language_name) LANGUAGE_SESSION_KEY =
      some langW.django_language_name ∧
    get_language_from_session dbW
        (sessionSet reqW LANGUAGE_SESSION_KEY langW.django_language_name) =
      .ok (some langW) :=
  update_then_get_language_roundtrip dbW reqW langW (by decide) (by decide)
    (by decide)

/-- C10: `get_language_from_session` never raises when locale names are
unique: it returns `False` (`none`) when the session has no language
selection or when the stored name matches no Language row, and otherwise
returns the unique matching Language row. -/
theorem get_language_from_session_never_raises (db : DBState)
    (request : Request)
    (huniq : db.languages.Pairwise fun a b =>
      ¬ a.django_language_name = b.django_language_name) :
    (∃ res, get_language_from_session db request = .ok res) ∧
    (sessionGet request LANGUAGE_SESSION_KEY = none →
      get_language_from_session db request = .ok none) ∧
    (∀ name, sessionGet request LANGUAGE_SESSION_KEY = some name →
      (¬∃ l ∈ db.languages, l.django_language_name = name) →
      get_language_from_session db request = .ok none) ∧
    (∀ name l, sessionGet request LANGUAGE_SESSION_KEY = some name →
      name ≠ "" → l ∈ db.languages → l.django_language_name = name →
      get_language_from_session db request = .ok (some l)) := by
  refine ⟨?_, ?_, ?_, ?_⟩
  · cases hsg : sessionGet request LANGUAGE_SESSION_KEY with
    | none => exact ⟨none, get_language_from_session_of_no_key db request hsg⟩
    | some name =>
      rw [get_language_from_session_of_key db request name hsg]
      by_cases hb : (name == "") = true
      · rw [if_pos hb]; exact ⟨none, rfl⟩
      · rw [if_neg hb]
        cases hog : objectsGet db.languages
            (fun l => l.django_language_name == name) with
        | ok l => exact ⟨some l, rfl⟩
        | error e =>
          rcases objectsGet_error_cases hog with h | h
          · subst h; exact ⟨none, rfl⟩
          · subst h
            exact absurd hog
              (objectsGet_ne_multiple (countP_language_name_le_one huniq name))
  · exact get_language_from_session_of_no_key db request
  · intro name hsg hnomatch
    rw [get_language_from_session_of_key db request name hsg]
    by_cases hb : (name == "") = true
    · rw [if_pos hb]
    · rw [if_neg hb]
      have hdne : objectsGet db.languages
          (fun l => l.django_language_name == name) = .error .doesNotExist := by
        rw [objectsGet_doesNotExist_iff, List.filter_eq_nil_iff]
        intro l hl hp
        exact hnomatch ⟨l, hl, by simpa using hp⟩
      rw [hdne]
  · intro name l hsg hne hl hlname
    rw [get_language_from_session_of_key db request name hsg]
    rw [if_neg (by simpa using hne)]
    rw [objectsGet_ok_of_mem (countP_language_name_le_one huniq name) hl
      (by simp [hlname])]

/-- Witness for C10: on the fixture store, a session storing `fr-fr`
resolves to the fixture language without an error. -/
theorem get_language_from_session_never_raises_witness :
    get_language_from_session dbW reqW2 = .ok (some langW) :=
  (get_language_from_session_never_raises dbW reqW2 (by decide)).2.2.2
    "fr-fr" langW (by decide) (by decide) (by decide) (by decide)

/-- C1 as stated is false at a concrete input: serializing an instance
with a declared attribute whose value resolves to `None` omits that
attribute from the mapping instead of passing it through, and a falsy
file value is replaced by `""` rather than a `{name, url, path}` triple. -/
theorem serializer_case_analysis_cex :
    instance_as_translated_dict dbW
        (.cons "doc" (.vFile none) (.skip "x" .nil)) true (some langW) none =
      .ok [("doc", .text "")] ∧
    "x" ∈ AttrList.declaredNames (.cons "doc" (.vFile none) (.skip "x" .nil)) ∧
    dictGet [("doc", OutValue.text "")] "x" = none ∧
    (∀ ft : FileTriple, OutValue.text "" ≠ .filedict ft) :=
  ⟨rfl, by simp [AttrList.declaredNames], rfl,
    fun ft h => OutValue.noConfusion h⟩

/-- C1 (amended): for every instance with distinct declared names and a
resolved Language, a successful `instance_as_translated_dict` maps each
declared attribute with a non-`None` value by exactly the case analysis —
Item reference replaced by the translated text for (Item, Language),
nested model serialized recursively when depth is on and passed through
unconverted when it is off, a truthy file value flattened to its
`{name, url, path}` triple and a falsy one replaced by `""`, every other
value passed through unchanged — and omits the declared attributes whose
value resolves to `None`. -/
theorem serializer_case_analysis (db : DBState) (depth : Bool) (l : Language)
    (inst : AttrList) (out : List (String × OutValue))
    (hok : instance_as_translated_dict db inst depth (some l) none = .ok out)
    (hnodup : inst.declaredNames.Nodup) :
    (∀ name v, inst.declaredValue name = some v →
      ∃ ov, dictGet out name = some ov ∧ serializedAs db depth l v ov) ∧
    (∀ name, inst.declaredValue name = none → dictGet out name = none) := by
  replace hok : serializeAttrs db depth (some l) inst = .ok out := hok
  exact serializeAttrs_dictGet db depth l inst out hok hnodup

/-- Witness for C1: the fixture instance serializes with its Item
reference replaced by `Bonjour` and its other attributes handled per the
case analysis. -/
theorem serializer_case_analysis_witness :
    (∀ name v, AttrList.declaredValue instSerW name = some v →
      ∃ ov, dictGet outSerW name = some ov ∧ serializedAs dbW true langW v ov) ∧
    (∀ name, AttrList.declaredValue instSerW name = none →
      dictGet outSerW name = none) :=
  serializer_case_analysis dbW true langW instSerW outSerW rfl (by decide)

/-- C6: with neither a language nor a request supplied, both
`instance_as_translated_dict` and `all_instances_as_translated_dict` raise
`TypeError` and produce no result dict. -/
theorem serializer_requires_language_or_request (db : DBState)
    (inst : AttrList) (insts : List AttrList) (depth : Bool) :
    instance_as_translated_dict db inst depth none none = .error .typeError ∧
    all_instances_as_translated_dict db insts depth none none =
      .error .typeError :=
  ⟨rfl, rfl⟩

/-- C9: for a translatable record and resolved Language, a successful
`dict_with_translations` binds every translated field name to its
translation text, leaves every key that is not a translated field name at
its original `__dict__` value, and keeps every original attribute
present. -/
theorem dict_with_translations_spec (db : DBState) (self : TRecord)
    (lang : Language) (out : List (String × PyVal))
    (hfld : db.fields.Pairwise fun a b =>
      ¬(a.content_type = b.content_type ∧ a.name = b.name))
    (hok : dict_with_translations db self (some lang) none = .ok out) :
    (∀ f ∈ db.fields, f.content_type = self.content_type →
      ∃ tr, get_translation db self.toInstance (some f) none (some lang) none =
          .ok tr ∧ dictGet out f.name = some (.str tr.text)) ∧
    (∀ key : String, (¬∃ f ∈ db.fields,
        f.content_type = self.content_type ∧ f.name = key) →
      dictGet out key = dictGet self.attrs key) ∧
    (∀ key : String, (dictGet self.attrs key).isSome →
      (dictGet out key).isSome) := by
  replace hok : addTranslations db self.toInstance lang
      (get_translated_fields db self.toInstance) self.attrs = .ok out := hok
  have hpw : (get_translated_fields db self.toInstance).Pairwise
      (fun a b => a.name ≠ b.name) := by
    have h1 : (get_translated_fields db self.toInstance).Pairwise
        (fun a b => ¬(a.content_type = b.content_type ∧ a.name = b.name)) :=
      List.Pairwise.sublist (List.filter_sublist _) hfld
    refine List.Pairwise.imp_of_mem ?_ h1
    intro a b ha hb hab hne
    rw [get_translated_fields, List.mem_filter] at ha hb
    have hcta : a.content_type = self.content_type := by simpa using ha.2
    have hctb : b.content_type = self.content_type := by simpa using hb.2
    exact hab ⟨hcta.trans hctb.symm, hne⟩
  have hnames : ((get_translated_fields db self.toInstance).map
      Field.name).Nodup := List.pairwise_map.mpr hpw
  refine ⟨?_, ?_, ?_⟩
  · intro f hf hct
    have hmem : f ∈ get_translated_fields db self.toInstance := by
      rw [get_translated_fields, List.mem_filter]
      exact ⟨hf, by simp [hct, TRecord.toInstance]⟩
    exact addTranslations_dictGet_found db self.toInstance lang _
      self.attrs out f hok hnames hmem
  · intro key hno
    refine addTranslations_dictGet_notin db self.toInstance lang _
      self.attrs out key hok ?_
    intro g hg he
    rw [get_translated_fields, List.mem_filter] at hg
    exact hno ⟨g, hg.1, by simpa [TRecord.toInstance] using hg.2, he⟩
  · intro key hsome
    exact addTranslations_dictGet_isSome db self.toInstance lang _
      self.attrs out key hok hsome

/-- Witness for C9: on the fixture store, the record's dict gains the
entry `title ↦ Bonjour` while the raw attributes survive. -/
theorem dict_with_translations_spec_witness :
    (∃ tr, get_translation dbW recW.toInstance (some fieldW) none
        (some langW) none = .ok tr ∧
      dictGet outRecW "title" = some (.str tr.text)) ∧
    dictGet outRecW "meta_info" = dictGet recW.attrs "meta_info" := by
  have H := dict_with_translations_spec dbW recW langW outRecW (by decide) rfl
  exact ⟨H.1 fieldW (by decide) (by decide), H.2.1 "meta_info" (by decide)⟩

end DDT
